import Mathlib

/-!
Verification development for the HyperReplay analysis scripts.

The two scripts are embedded shallowly:
  * `scripts/replay_real_time_accounts.py` — the chronological account-state
    reconstructor (STEP 2 window filter, STEP 3 event fold, STEP 4 ADL
    identification, STEP 5 per-ADL derived metrics).
  * `scripts/extract_full_12min_adl.py` — the windowed ADL fill extractor
    (`extract_adl_fills`: time-window filter, direction-label filter, spot
    filter).

Python floats are modelled as `ℚ` (all operations used are field operations),
timestamps as `ℤ` (epoch milliseconds in the replay script, epoch microseconds
in the extractor), Python dicts as insertion-ordered association lists, and a
Python value that may be `None` as an `Option`.  Arithmetic that can raise in
Python (division, arithmetic on a possibly-`None` operand) is modelled in the
`Except String` monad.
-/

namespace HyperReplay

/-- Association-list lookup, modelling a Python `dict` read (`m[k]` /
`k in m` / `m.get(k)`). -/
def alookup {α : Type} : List (String × α) → String → Option α
  | [], _ => none
  | (k', v) :: rest, k => if k' = k then some v else alookup rest k

/-- Association-list update, modelling a Python `dict` write `m[k] = v`:
an existing binding is replaced in place, a new key is appended (Python
dicts preserve insertion order). -/
def aupdate {α : Type} : List (String × α) → String → α → List (String × α)
  | [], k, v => [(k, v)]
  | (k', v') :: rest, k, v =>
      if k' = k then (k, v) :: rest else (k', v') :: aupdate rest k v

/-- A per-instrument position, as stored by the replay script
(`replay_real_time_accounts.py` lines 117–121 and 283–287):
`{'size': ..., 'entry_price': ..., 'notional': ...}`.  The snapshot JSON may
carry `null` for `entry_price`, so that field is an `Option`. -/
structure Position where
  size : ℚ
  entry_price : Option ℚ
  notional : ℚ
deriving Repr, DecidableEq

/-- One account's state (`replay_real_time_accounts.py` lines 100–104):
`{'account_value': ..., 'positions': {...}, 'snapshot_time': ...}`. -/
structure AccountState where
  account_value : ℚ
  positions : List (String × Position)
  snapshot_time : ℤ
deriving Repr, DecidableEq

/-- The combined event record built in STEP 2 of the replay script
(lines 154–167 for fills, 191–229 for funding / deposits / withdrawals /
accountClassTransfers). -/
inductive Event : Type
  | fill (time : ℤ) (user coin : String) (price sz : ℚ) (side dir : String)
      (closedPnl fee startPosition : ℚ) (liquidated_user : Option String)
  | funding (time : ℤ) (user coin : String) (funding_amount : ℚ)
  | deposit (time : ℤ) (user : String) (amount : ℚ)
  | withdrawal (time : ℤ) (user : String) (amount : ℚ)
  | transfer (time : ℤ) (user : String) (amount : ℚ)
deriving Repr, DecidableEq

/-- The event's `'time'` field. -/
def Event.time : Event → ℤ
  | .fill t _ _ _ _ _ _ _ _ _ _ => t
  | .funding t _ _ _ => t
  | .deposit t _ _ => t
  | .withdrawal t _ _ => t
  | .transfer t _ _ => t

/-- The event's `'user'` field. -/
def Event.user : Event → String
  | .fill _ u _ _ _ _ _ _ _ _ _ => u
  | .funding _ u _ _ => u
  | .deposit _ u _ => u
  | .withdrawal _ u _ => u
  | .transfer _ u _ => u

/-- The event's `'dir'` field, present only on fills. -/
def Event.direction? : Event → Option String
  | .fill _ _ _ _ _ _ d _ _ _ _ => some d
  | _ => none

/-- The mutable state of the STEP 3 fold: the `working_states` dict
(line 250) and the `last_prices` dict (line 253). -/
structure ReplayState where
  working_states : List (String × AccountState)
  last_prices : List (String × ℚ)
deriving Repr, DecidableEq

/-- Lines 267–273: look up the event's user in `working_states`, lazily
creating a fresh state with zero account value at the event's time when the
user is absent.  Returns the (possibly fresh) account together with the
(possibly extended) map. -/
def getUser (ws : List (String × AccountState)) (user : String) (t : ℤ) :
    AccountState × List (String × AccountState) :=
  match alookup ws user with
  | some a => (a, ws)
  | none =>
      let a : AccountState := { account_value := 0, positions := [], snapshot_time := t }
      (a, aupdate ws user a)

/-- One iteration of the STEP 3 fold (lines 259–306): the type-specific
mutation applied to the working state for one event.
  * fill (lines 275–294): add `closedPnl`, subtract `fee`; if the coin has no
    position entry, create one with size 0, entry price equal to the fill's
    price and notional 0; then overwrite the position's size with the fill's
    `startPosition`; record the fill's price in `last_prices`.
  * funding (line 297): add `funding_amount`.
  * deposit (line 300): add `amount`;  withdrawal (line 303): subtract it;
    transfer (line 306): add the signed `amount`. -/
def applyEvent (st : ReplayState) (e : Event) : ReplayState :=
  match e with
  | .fill t user coin price _sz _side _dir closedPnl fee startPosition _liq =>
      let gw := getUser st.working_states user t
      let acct := gw.1
      let ws := gw.2
      let av := acct.account_value + closedPnl - fee
      let position :=
        match alookup acct.positions coin with
        | none => { size := 0, entry_price := some price, notional := 0 : Position }
        | some p => p
      let positions := aupdate acct.positions coin { position with size := startPosition }
      { working_states := aupdate ws user { acct with account_value := av, positions := positions },
        last_prices := aupdate st.last_prices coin price }
  | .funding t user _coin amount =>
      let gw := getUser st.working_states user t
      { st with working_states :=
          aupdate gw.2 user { gw.1 with account_value := gw.1.account_value + amount } }
  | .deposit t user amount =>
      let gw := getUser st.working_states user t
      { st with working_states :=
          aupdate gw.2 user { gw.1 with account_value := gw.1.account_value + amount } }
  | .withdrawal t user amount =>
      let gw := getUser st.working_states user t
      { st with working_states :=
          aupdate gw.2 user { gw.1 with account_value := gw.1.account_value - amount } }
  | .transfer t user amount =>
      let gw := getUser st.working_states user t
      { st with working_states :=
          aupdate gw.2 user { gw.1 with account_value := gw.1.account_value + amount } }

/-- The STEP 3 fold over the whole in-window event sequence, starting from a
deep copy of the snapshot states (line 250) and an empty `last_prices` dict
(line 253). -/
def replayFold (init : List (String × AccountState)) (events : List Event) : ReplayState :=
  events.foldl applyEvent { working_states := init, last_prices := [] }

/-- `SNAPSHOT_TIME = 1760126694218` (line 132, epoch ms, 20:04:54.218 UTC). -/
def SNAPSHOT_TIME : ℤ := 1760126694218

/-- `ADL_END_TIME = 1760131620000` (line 134, epoch ms, 21:27:00 UTC). -/
def ADL_END_TIME : ℤ := 1760131620000

/-- The analysis-window predicate of line 239:
`SNAPSHOT_TIME <= e['time'] <= ADL_END_TIME`. -/
def replayTimeKeep (t : ℤ) : Bool :=
  decide (SNAPSHOT_TIME ≤ t) && decide (t ≤ ADL_END_TIME)

/-- Line 239: `events_in_window = [e for e in all_events if SNAPSHOT_TIME <= e['time'] <= ADL_END_TIME]`. -/
def eventsInWindow (events : List Event) : List Event :=
  events.filter (fun e => replayTimeKeep e.time)

/-- The recognised ADL direction label. -/
def adlLabel : String := "Auto-Deleveraging"

/-- STEP 4 direction test (line 324): `direction == 'Auto-Deleveraging'`,
an exact string equality. -/
def replayIsADLDir (direction : String) : Bool :=
  decide (direction = adlLabel)

/-- STEP 4 (lines 320–325): an event is collected into `adl_events` iff it is
a fill whose direction equals the ADL label exactly. -/
def isADLReplay (e : Event) : Bool :=
  match e with
  | .fill _ _ _ _ _ _ d _ _ _ _ => replayIsADLDir d
  | _ => false

/-- STEP 4 applied to the in-window event list (line 320). -/
def adlEventsOf (events : List Event) : List Event :=
  events.filter isADLReplay

/-- One position's contribution to the account-wide unrealized-PnL aggregate
(lines 358–376).  Each `continue` of the Python loop is a zero contribution:
size 0 is skipped; a coin with no last price (`last_prices.get(pos_coin, 0)`)
or last price 0 is skipped; an entry price of `None` or 0 is skipped;
otherwise long positions contribute `size * (current - entry)` and short
positions `|size| * (entry - current)`. -/
def posContribution (lp : List (String × ℚ)) (pos_coin : String) (position : Position) : ℚ :=
  if position.size = 0 then 0
  else
    let current_price := (alookup lp pos_coin).getD 0
    if current_price = 0 then 0
    else
      match position.entry_price with
      | none => 0
      | some entry_price =>
          if entry_price = 0 then 0
          else if position.size > 0 then position.size * (current_price - entry_price)
          else |position.size| * (entry_price - current_price)

/-- Lines 357–376: `total_unrealized_pnl`, the sum of the contributions of
all positions the account holds, accumulated in iteration order. -/
def totalUnrealized (lp : List (String × ℚ)) (positions : List (String × Position)) : ℚ :=
  positions.foldl (fun acc x => acc + posContribution lp x.1 x.2) 0

/-- Error message for a Python `ZeroDivisionError`. -/
def zeroDivMsg : String := "ZeroDivisionError: division by zero"

/-- Error message for Python arithmetic on a `None` operand. -/
def noneArithMsg : String := "TypeError: unsupported operand type: NoneType"

/-- Python division, which raises on a zero denominator. -/
def pyDiv (a b : ℚ) : Except String ℚ :=
  if b = 0 then Except.error zeroDivMsg else Except.ok (a / b)

/-- Using a possibly-`None` Python value as a number: raises on `None`. -/
def pyNum (v : Option ℚ) : Except String ℚ :=
  match v with
  | none => Except.error noneArithMsg
  | some q => Except.ok q

/-- Line 392: `pnl_percent = (position_unrealized_pnl / position_notional * 100)
if position_notional > 0 else 0`.  The division runs only under the guard. -/
def pnlPercentCalc (position_unrealized_pnl position_notional : ℚ) : Except String ℚ :=
  if position_notional > 0 then do
    let q ← pyDiv position_unrealized_pnl position_notional
    Except.ok (q * 100)
  else Except.ok 0

/-- Line 394: `leverage = position_notional / account_value if account_value > 0
else 0`.  The division runs only under the guard. -/
def leverageCalc (position_notional account_value : ℚ) : Except String ℚ :=
  if account_value > 0 then pyDiv position_notional account_value
  else Except.ok 0

/-- One output row of the STEP 5 loop (lines 398–416). -/
structure ADLRecord where
  user : String
  coin : String
  time : ℤ
  adl_price : ℚ
  adl_size : ℚ
  adl_notional : ℚ
  closed_pnl : ℚ
  position_size : ℚ
  entry_price : ℚ
  account_value_realtime : ℚ
  total_unrealized_pnl : ℚ
  total_equity : ℚ
  is_negative_equity : Bool
  leverage_realtime : ℚ
  position_unrealized_pnl : ℚ
  pnl_percent : ℚ
  liquidated_user : Option String
deriving Repr, DecidableEq

/-- One iteration of the STEP 5 loop (lines 343–416), computing the derived
metrics for one ADL fill against a replay state `st`.  (As in the script, the
state handed to every iteration is the one left by the completed STEP 3 fold.)
`Except.ok none` models a `continue` (user absent from `working_states`,
line 351, or coin absent from the account's positions, line 380);
`Except.error` models a raised Python exception.  The `'entry_price'` key is
set on every creation path of the position dict, so line 384's
`position.get('entry_price', adl['price'])` always yields the stored value,
which may be `None` and then raises at line 387's subtraction. -/
def computeADLMetrics (st : ReplayState) (e : Event) : Except String (Option ADLRecord) :=
  match e with
  | .fill adl_time user coin price sz _side _dir closedPnl _fee _sp liq =>
      match alookup st.working_states user with
      | none => Except.ok none
      | some account_state =>
          let total_unrealized_pnl := totalUnrealized st.last_prices account_state.positions
          let total_equity := account_state.account_value + total_unrealized_pnl
          match alookup account_state.positions coin with
          | none => Except.ok none
          | some position => do
              let entry_price ← pyNum position.entry_price
              let position_unrealized_pnl :=
                if position.size > 0 then position.size * (price - entry_price)
                else |position.size| * (entry_price - price)
              let position_notional := |position.size| * price
              let pnl_percent ← pnlPercentCalc position_unrealized_pnl position_notional
              let leverage ← leverageCalc position_notional account_state.account_value
              Except.ok (some {
                user := user
                coin := coin
                time := adl_time
                adl_price := price
                adl_size := sz
                adl_notional := |sz| * price
                closed_pnl := closedPnl
                position_size := position.size
                entry_price := entry_price
                account_value_realtime := account_state.account_value
                total_unrealized_pnl := total_unrealized_pnl
                total_equity := total_equity
                is_negative_equity := decide (total_equity < 0)
                leverage_realtime := leverage
                position_unrealized_pnl := position_unrealized_pnl
                pnl_percent := pnl_percent
                liquidated_user := liq })
  | _ => Except.ok none

/-- The STEP 5 loop over the ADL event list: the `adl_with_realtime` list,
with `continue`d events omitted and Python exceptions propagated. -/
def collectADL (st : ReplayState) : List Event → Except String (List ADLRecord)
  | [] => Except.ok []
  | e :: rest => do
      let r? ← computeADLMetrics st e
      let rs ← collectADL st rest
      match r? with
      | none => Except.ok rs
      | some r => Except.ok (r :: rs)

/-- STEPs 2–5 of the replay script on an already-sorted event list: filter to
the analysis window (line 239), fold every in-window event (lines 259–306),
identify the ADL fills (lines 320–325), then run the metric loop of
lines 343–416 — against the state left by the completed fold, which is what
the script does. -/
def replayPipeline (init : List (String × AccountState)) (events : List Event) :
    Except String (List ADLRecord) :=
  let win := eventsInWindow events
  let final := replayFold init win
  collectADL final (adlEventsOf win)

/-- Substring test on character lists, modelling Python's `needle in hay`
for strings. -/
def subListOf : List Char → List Char → Bool
  | needle, [] => needle.isEmpty
  | needle, c :: rest => needle.isPrefixOf (c :: rest) || subListOf needle rest

/-- Python's `needle in hay` on strings. -/
def strContains (hay needle : String) : Bool :=
  subListOf needle.toList hay.toList

/-- `extract_full_12min_adl.py` line 105: the extractor keeps a fill iff
`'Auto-Deleveraging' in direction` — a substring containment test. -/
def extractIsADL (direction : String) : Bool :=
  strContains direction adlLabel

/-- `ADL_START` of `extract_full_12min_adl.py` line 28 (2025-10-10 21:15:00
UTC) in epoch microseconds, the resolution `datetime.fromisoformat` yields. -/
def EXT_ADL_START : ℤ := 1760130900000000

/-- `ADL_END` of `extract_full_12min_adl.py` line 29 (2025-10-10 21:27:00 UTC)
in epoch microseconds. -/
def EXT_ADL_END : ℤ := 1760131620000000

/-- `extract_full_12min_adl.py` line 90: a parsed record is kept iff NOT
(`block_time < ADL_START or block_time >= ADL_END`). -/
def extractTimeKeep (t : ℤ) : Bool :=
  !(decide (t < EXT_ADL_START) || decide (EXT_ADL_END ≤ t))

/-- The spot-market marker character of `extract_full_12min_adl.py` line 109. -/
def spotMarker : String := "@"

/-- `extract_full_12min_adl.py` lines 103–110: the extractor's per-fill
filter — direction contains the ADL label and the coin does not start with
the spot marker. -/
def extractFillKeep (direction coin : String) : Bool :=
  extractIsADL direction && !(String.startsWith coin spotMarker)

/-! ### Helper lemmas about the association-list operations -/

theorem alookup_aupdate {α : Type} (m : List (String × α)) (k a : String) (v : α) :
    alookup (aupdate m k v) a = if k = a then some v else alookup m a := by
  induction m with
  | nil =>
      by_cases h : k = a <;> simp [aupdate, alookup, h]
  | cons hd tl ih =>
      obtain ⟨k', v'⟩ := hd
      by_cases hk : k' = k
      · subst hk
        by_cases h : k' = a <;> simp [aupdate, alookup, h]
      · by_cases h : k' = a
        · subst h
          have hka : ¬ k = k' := fun hh => hk hh.symm
          simp [aupdate, alookup, hk, hka, ih]
        · simp [aupdate, alookup, hk, h, ih]

theorem alookup_aupdate_self {α : Type} (m : List (String × α)) (k : String) (v : α) :
    alookup (aupdate m k v) k = some v := by
  simp [alookup_aupdate]

theorem alookup_aupdate_ne {α : Type} (m : List (String × α)) (k a : String) (v : α)
    (h : k ≠ a) : alookup (aupdate m k v) a = alookup m a := by
  simp [alookup_aupdate, h]

theorem getUser_snd_ne (ws : List (String × AccountState)) (u a : String) (t : ℤ)
    (h : u ≠ a) : alookup (getUser ws u t).2 a = alookup ws a := by
  unfold getUser
  cases hl : alookup ws u with
  | some x => simp
  | none => simp [alookup_aupdate_ne _ _ _ _ h]

theorem getUser_snd_self (ws : List (String × AccountState)) (u : String) (t : ℤ) :
    alookup (getUser ws u t).2 u = some (getUser ws u t).1 := by
  unfold getUser
  cases hl : alookup ws u with
  | some x => simpa using hl
  | none => simp [alookup_aupdate_self]

/-! ### C5: the extractor window is closed-open -/

/-- C5.  The extractor's windowed filter keeps exactly the records whose
parsed timestamp lies in the closed-open interval `[ADL_START, ADL_END)`:
a record timestamped exactly at the window start is included and a record
timestamped exactly at the window end is excluded. -/
theorem extractor_window_half_open :
    (∀ t : ℤ, extractTimeKeep t = true ↔ EXT_ADL_START ≤ t ∧ t < EXT_ADL_END) ∧
    extractTimeKeep EXT_ADL_START = true ∧ extractTimeKeep EXT_ADL_END = false := by
  refine ⟨fun t => ?_, ?_, ?_⟩
  · simp only [extractTimeKeep, Bool.not_eq_true', Bool.or_eq_false_iff,
      decide_eq_false_iff_not, not_lt]
    omega
  · simp only [extractTimeKeep, Bool.not_eq_true', Bool.or_eq_false_iff,
      decide_eq_false_iff_not, not_lt]
    unfold EXT_ADL_START EXT_ADL_END
    omega
  · simp only [extractTimeKeep, Bool.not_eq_false', Bool.or_eq_true_iff, decide_eq_true_eq]
    unfold EXT_ADL_START EXT_ADL_END
    omega

/-! ### C9: the reconstructor window is closed at both ends -/

/-- C9.  The Account Reconstructor's analysis window, unlike the extractor's
half-open window, is closed at both ends: an event timestamped exactly at the
snapshot time or exactly at the window end is kept by the line-239 filter, and
only events strictly before the snapshot time or strictly after the end time
are dropped. -/
theorem replay_window_closed_both_ends :
    (∀ t : ℤ, replayTimeKeep t = true ↔ SNAPSHOT_TIME ≤ t ∧ t ≤ ADL_END_TIME) ∧
    (∀ (events : List Event) (e : Event),
        e ∈ eventsInWindow events ↔ e ∈ events ∧ replayTimeKeep e.time = true) ∧
    replayTimeKeep SNAPSHOT_TIME = true ∧ replayTimeKeep ADL_END_TIME = true ∧
    replayTimeKeep (SNAPSHOT_TIME - 1) = false ∧ replayTimeKeep (ADL_END_TIME + 1) = false := by
  have hiff : ∀ t : ℤ, replayTimeKeep t = true ↔ SNAPSHOT_TIME ≤ t ∧ t ≤ ADL_END_TIME := by
    intro t
    simp only [replayTimeKeep, Bool.and_eq_true, decide_eq_true_eq]
  refine ⟨hiff, ?_, ?_, ?_, ?_, ?_⟩
  · intro events e
    simp [eventsInWindow, List.mem_filter]
  · exact (hiff _).mpr ⟨le_refl _, by unfold SNAPSHOT_TIME ADL_END_TIME; omega⟩
  · exact (hiff _).mpr ⟨by unfold SNAPSHOT_TIME ADL_END_TIME; omega, le_refl _⟩
  · simp only [replayTimeKeep, Bool.and_eq_false_iff, decide_eq_false_iff_not, not_le]
    omega
  · simp only [replayTimeKeep, Bool.and_eq_false_iff, decide_eq_false_iff_not, not_le]
    omega

/-! ### C4: ADL classification — substring containment versus exact equality -/

theorem subListOf_iff_infix (n : List Char) (h : List Char) :
    subListOf n h = true ↔ n <:+: h := by
  induction h with
  | nil =>
      simp only [subListOf, List.isEmpty_iff]
      constructor
      · intro hn; simp [hn]
      · intro hn; exact List.eq_nil_of_infix_nil hn
  | cons c t ih =>
      simp only [subListOf, Bool.or_eq_true, List.isPrefixOf_iff_prefix, ih,
        List.infix_cons_iff]

/-- A direction label that strictly contains the ADL label. -/
def strictLabel : String := "Auto-Deleveraging (backstop)"

/-- C4, counterexample.  On the direction label
`"Auto-Deleveraging (backstop)"`, which strictly contains
`"Auto-Deleveraging"`, the extractor's filter (substring test, line 105 of
`extract_full_12min_adl.py`) accepts, while the reconstructor's STEP 4
identification (exact equality, line 324 of
`replay_real_time_accounts.py`) rejects — so the two pipelines do not agree,
and the reconstructor does not classify a strictly-containing label as ADL. -/
theorem adl_substring_vs_equality_cex :
    extractIsADL strictLabel = true ∧
    isADLReplay (Event.fill 1760130900000 strictLabel strictLabel 1 1 strictLabel
        strictLabel 0 0 0 none) = false := by
  constructor
  · decide
  · decide

/-- C4, amended.  The extractor classifies a fill as ADL iff its direction
label contains `"Auto-Deleveraging"` as a substring, but the Account
Reconstructor's STEP 4 classifies an event as ADL iff it is a fill whose
direction label is exactly `"Auto-Deleveraging"`; a label that strictly
contains the ADL label along with other text is kept by the extractor and
rejected by the reconstructor. -/
theorem adl_classification_amended :
    (∀ d : String, extractIsADL d = true ↔ adlLabel.toList <:+: d.toList) ∧
    (∀ e : Event, isADLReplay e = true ↔ e.direction? = some adlLabel) := by
  constructor
  · intro d
    exact subListOf_iff_infix adlLabel.toList d.toList
  · intro e
    cases e with
    | fill t u c p s sd d pnl fee sp liq =>
        simp [isADLReplay, replayIsADLDir, Event.direction?]
    | funding t u c a => simp [isADLReplay, Event.direction?]
    | deposit t u a => simp [isADLReplay, Event.direction?]
    | withdrawal t u a => simp [isADLReplay, Event.direction?]
    | transfer t u a => simp [isADLReplay, Event.direction?]

/-! ### C6: degenerate positions contribute nothing to the unrealized-PnL aggregate -/

theorem totalUnrealized_shift (lp : List (String × ℚ)) (l : List (String × Position)) (a : ℚ) :
    l.foldl (fun acc x => acc + posContribution lp x.1 x.2) a
      = a + totalUnrealized lp l := by
  induction l generalizing a with
  | nil => simp [totalUnrealized]
  | cons x xs ih =>
      simp only [totalUnrealized, List.foldl_cons] at *
      rw [ih (a + posContribution lp x.1 x.2), ih (0 + posContribution lp x.1 x.2)]
      ring

theorem totalUnrealized_append (lp : List (String × ℚ))
    (l₁ l₂ : List (String × Position)) :
    totalUnrealized lp (l₁ ++ l₂) = totalUnrealized lp l₁ + totalUnrealized lp l₂ := by
  simp only [totalUnrealized, List.foldl_append]
  rw [totalUnrealized_shift]
  rfl

theorem totalUnrealized_cons (lp : List (String × ℚ)) (c : String) (p : Position)
    (l : List (String × Position)) :
    totalUnrealized lp ((c, p) :: l) = posContribution lp c p + totalUnrealized lp l := by
  simp only [totalUnrealized, List.foldl_cons]
  rw [totalUnrealized_shift]
  simp only [totalUnrealized, zero_add]

theorem posContribution_degenerate (lp : List (String × ℚ)) (c : String) (p : Position)
    (h : p.size = 0 ∨ (alookup lp c).getD 0 = 0 ∨ p.entry_price = none ∨
      p.entry_price = some 0) :
    posContribution lp c p = 0 := by
  unfold posContribution
  rcases h with h | h | h | h
  · simp [h]
  · by_cases hs : p.size = 0
    · simp [hs]
    · simp [hs, h]
  · by_cases hs : p.size = 0
    · simp [hs]
    · by_cases hc : (alookup lp c).getD 0 = 0
      · simp [hs, hc]
      · simp [hs, hc, h]
  · by_cases hs : p.size = 0
    · simp [hs]
    · by_cases hc : (alookup lp c).getD 0 = 0
      · simp [hs, hc]
      · simp [hs, hc, h]

/-- C6.  A position whose size is zero, whose last observed price is zero or
missing (`last_prices.get(pos_coin, 0)` yields 0), or whose entry price is
`None` or 0 contributes nothing to the account-wide unrealized-PnL aggregate:
it contributes 0 itself, and the aggregate over a position list containing it
— wherever it sits — equals the aggregate over the same list without it. -/
theorem degenerate_position_leaves_aggregate (lp : List (String × ℚ))
    (pre post : List (String × Position)) (c : String) (p : Position)
    (h : p.size = 0 ∨ (alookup lp c).getD 0 = 0 ∨ p.entry_price = none ∨
      p.entry_price = some 0) :
    posContribution lp c p = 0 ∧
    totalUnrealized lp (pre ++ (c, p) :: post) = totalUnrealized lp (pre ++ post) := by
  have h0 := posContribution_degenerate lp c p h
  refine ⟨h0, ?_⟩
  rw [totalUnrealized_append, totalUnrealized_append, totalUnrealized_cons, h0]
  ring

/-- C6, witness: injecting a size-0 position into a one-position state leaves
the aggregate untouched. -/
theorem degenerate_position_leaves_aggregate_witness :
    posContribution [("Y", (3 : ℚ))] "Z" { size := 0, entry_price := some 5, notional := 7 } = 0 ∧
    totalUnrealized [("Y", (3 : ℚ))]
        ([("Y", { size := 2, entry_price := some 1, notional := 6 })] ++
          ("Z", { size := 0, entry_price := some 5, notional := 7 }) ::
          ([] : List (String × Position)))
      = totalUnrealized [("Y", (3 : ℚ))]
          ([("Y", { size := 2, entry_price := some 1, notional := 6 })] ++
            ([] : List (String × Position))) :=
  degenerate_position_leaves_aggregate [("Y", (3 : ℚ))]
    [("Y", { size := 2, entry_price := some 1, notional := 6 })] []
    "Z" { size := 0, entry_price := some 5, notional := 7 } (Or.inl rfl)

/-! ### C7: guarded divisions never raise -/

theorem pnlPercentCalc_eq (p n : ℚ) :
    pnlPercentCalc p n = Except.ok (if n > 0 then p / n * 100 else 0) := by
  unfold pnlPercentCalc pyDiv
  by_cases h : n > 0
  · have hne : ¬ n = 0 := by exact ne_of_gt h
    simp [h, hne, bind, Except.bind]
  · simp [h]

theorem leverageCalc_eq (n av : ℚ) :
    leverageCalc n av = Except.ok (if av > 0 then n / av else 0) := by
  unfold leverageCalc pyDiv
  by_cases h : av > 0
  · have hne : ¬ av = 0 := by exact ne_of_gt h
    simp [h, hne]
  · simp [h]

/-- C7.  The STEP 5 per-event metric computation never signals a division
error: the only exception it can produce is the `None`-arithmetic one (a
snapshot position whose entry price is `null`), never `zeroDivMsg`; the
leverage computation yields 0 whenever account value is not strictly
positive, and the PnL-percent computation yields 0 whenever position notional
is not strictly positive (and in the positive cases they are the guarded
quotients). -/
theorem adl_metrics_no_division_error (st : ReplayState) (e : Event) :
    (∀ s : String, computeADLMetrics st e = Except.error s → s = noneArithMsg) ∧
    (∀ n av : ℚ, ¬ av > 0 → leverageCalc n av = Except.ok 0) ∧
    (∀ p n : ℚ, ¬ n > 0 → pnlPercentCalc p n = Except.ok 0) ∧
    (∀ n av : ℚ, av > 0 → leverageCalc n av = Except.ok (n / av)) ∧
    (∀ p n : ℚ, n > 0 → pnlPercentCalc p n = Except.ok (p / n * 100)) := by
  refine ⟨?_, ?_, ?_, ?_, ?_⟩
  · intro s hs
    cases e with
    | fill t u c price sz sd d pnl fee sp liq =>
        cases hu : alookup st.working_states u with
        | none => simp [computeADLMetrics, hu] at hs
        | some acct =>
            cases hc : alookup acct.positions c with
            | none => simp [computeADLMetrics, hu, hc] at hs
            | some position =>
                cases hep : position.entry_price with
                | none =>
                    simp only [computeADLMetrics, hu, hc, hep, pyNum, bind,
                      Except.bind] at hs
                    injection hs with h
                    exact h.symm
                | some q =>
                    simp [computeADLMetrics, hu, hc, hep, pyNum,
                      pnlPercentCalc_eq, leverageCalc_eq, bind, Except.bind] at hs
    | funding t u c a => exact absurd hs (by simp [computeADLMetrics])
    | deposit t u a => exact absurd hs (by simp [computeADLMetrics])
    | withdrawal t u a => exact absurd hs (by simp [computeADLMetrics])
    | transfer t u a => exact absurd hs (by simp [computeADLMetrics])
  · intro n av h
    rw [leverageCalc_eq]
    simp [h]
  · intro p n h
    rw [pnlPercentCalc_eq]
    simp [h]
  · intro n av h
    rw [leverageCalc_eq]
    simp [h]
  · intro p n h
    rw [pnlPercentCalc_eq]
    simp [h]

/-! ### C8: an account no event references keeps its snapshot state -/

theorem applyEvent_frame (st : ReplayState) (e : Event) (a : String)
    (h : e.user ≠ a) :
    alookup (applyEvent st e).working_states a = alookup st.working_states a := by
  cases e with
  | fill t u c price sz sd d pnl fee sp liq =>
      simp only [Event.user] at h
      simp only [applyEvent]
      rw [alookup_aupdate_ne _ _ _ _ h, getUser_snd_ne _ _ _ _ h]
  | funding t u c amt =>
      simp only [Event.user] at h
      simp only [applyEvent]
      rw [alookup_aupdate_ne _ _ _ _ h, getUser_snd_ne _ _ _ _ h]
  | deposit t u amt =>
      simp only [Event.user] at h
      simp only [applyEvent]
      rw [alookup_aupdate_ne _ _ _ _ h, getUser_snd_ne _ _ _ _ h]
  | withdrawal t u amt =>
      simp only [Event.user] at h
      simp only [applyEvent]
      rw [alookup_aupdate_ne _ _ _ _ h, getUser_snd_ne _ _ _ _ h]
  | transfer t u amt =>
      simp only [Event.user] at h
      simp only [applyEvent]
      rw [alookup_aupdate_ne _ _ _ _ h, getUser_snd_ne _ _ _ _ h]

theorem foldl_applyEvent_frame (events : List Event) (st : ReplayState) (a : String)
    (h : ∀ e ∈ events, e.user ≠ a) :
    alookup (events.foldl applyEvent st).working_states a
      = alookup st.working_states a := by
  induction events generalizing st with
  | nil => rfl
  | cons e rest ih =>
      rw [List.foldl_cons, ih _ (fun x hx => h x (List.mem_cons_of_mem _ hx)),
        applyEvent_frame st e a (h e (List.mem_cons_self _ _))]

/-- C8.  For any account id that is not the acting user of any folded event,
the state after the full reconstruction pass — the whole record: account
value, positions with sizes, entry prices and notionals, snapshot time —
equals its initial snapshot state exactly. -/
theorem untouched_account_keeps_snapshot_state (init : List (String × AccountState))
    (events : List Event) (a : String) (h : ∀ e ∈ events, e.user ≠ a) :
    alookup (replayFold init events).working_states a = alookup init a :=
  foldl_applyEvent_frame events { working_states := init, last_prices := [] } a h

/-- An initial snapshot entry used by the C8 witness. -/
def bystanderState : AccountState :=
  { account_value := 77
    positions := [("X", { size := 3, entry_price := some 4, notional := 12 })]
    snapshot_time := SNAPSHOT_TIME }

/-- C8, witness: folding a deposit for user `"A"` leaves bystander `"B"`
exactly at its snapshot state. -/
theorem untouched_account_keeps_snapshot_state_witness :
    alookup (replayFold [("B", bystanderState)]
        [Event.deposit 1760130900000 "A" 5]).working_states "B"
      = alookup [("B", bystanderState)] "B" :=
  untouched_account_keeps_snapshot_state [("B", bystanderState)]
    [Event.deposit 1760130900000 "A" 5] "B"
    (by intro e he; simp at he; subst he; simp [Event.user])

/-! ### C3: entry price is set at position creation and never overwritten -/

/-- Fill events used by the C3 counterexample: two fills on the same
instrument by the same user at different prices. -/
def c3_fill1 : Event :=
  Event.fill 1760130900000 "A" "X" 100 1 "B" "Open Long" 0 0 0 none

/-- Second C3 fill, at price 120. -/
def c3_fill2 : Event :=
  Event.fill 1760130900001 "A" "X" 120 1 "B" "Open Long" 0 0 1 none

/-- C3, counterexample.  After two fills on instrument `"X"` at prices 100
then 120, the stored entry price is 100 — the price of the FIRST fill, which
created the position — not 120, the price of the most recent fill.  So a fill
on an existing position does not overwrite the stored entry price. -/
theorem entry_price_not_overwritten_cex :
    ((alookup (replayFold [] [c3_fill1, c3_fill2]).working_states "A").bind
        (fun a => alookup a.positions "X")).map Position.entry_price
      = some (some 100) ∧
    ¬ ((alookup (replayFold [] [c3_fill1, c3_fill2]).working_states "A").bind
        (fun a => alookup a.positions "X")).map Position.entry_price
      = some (some 120) := by
  constructor
  · norm_num [replayFold, applyEvent, getUser, alookup, aupdate, c3_fill1, c3_fill2]
  · norm_num [replayFold, applyEvent, getUser, alookup, aupdate, c3_fill1, c3_fill2]

theorem applyEvent_fill_position_spec (st : ReplayState) (t : ℤ) (u c : String)
    (price sz : ℚ) (side dir : String) (pnl fee sp : ℚ) (liq : Option String) :
    (alookup (applyEvent st
          (Event.fill t u c price sz side dir pnl fee sp liq)).working_states u).bind
        (fun a => alookup a.positions c)
      = some
        { size := sp
          entry_price :=
            match (alookup st.working_states u).bind (fun b => alookup b.positions c) with
            | some p => p.entry_price
            | none => some price
          notional :=
            match (alookup st.working_states u).bind (fun b => alookup b.positions c) with
            | some p => p.notional
            | none => 0 } := by
  simp only [applyEvent]
  rw [alookup_aupdate_self]
  cases hu : alookup st.working_states u with
  | none =>
      have hfst : (getUser st.working_states u t).1
          = { account_value := 0, positions := [], snapshot_time := t } := by
        simp [getUser, hu]
      simp [hfst, alookup, aupdate]
  | some acct =>
      have hfst : (getUser st.working_states u t).1 = acct := by
        simp [getUser, hu]
      cases hc : alookup acct.positions c with
      | none => simp [hfst, hc, alookup_aupdate_self]
      | some p => simp [hfst, hc, alookup_aupdate_self]

/-- C3, amended.  Applying a fill to a state updates exactly the affected
position: its size becomes the fill's `startPosition`; its entry price is the
fill's price only when the account had no stored position for that instrument
(creation), and otherwise stays at the previously stored entry price (it is
never recomputed as a weighted average and never overwritten by later fills);
its notional likewise stays at its previous value (0 on creation). -/
theorem fill_position_update_amended (st : ReplayState) (t : ℤ) (u c : String)
    (price sz : ℚ) (side dir : String) (pnl fee sp : ℚ) (liq : Option String) :
    (alookup (applyEvent st
          (Event.fill t u c price sz side dir pnl fee sp liq)).working_states u).bind
        (fun a => alookup a.positions c)
      = some
        { size := sp
          entry_price :=
            match (alookup st.working_states u).bind (fun b => alookup b.positions c) with
            | some p => p.entry_price
            | none => some price
          notional :=
            match (alookup st.working_states u).bind (fun b => alookup b.positions c) with
            | some p => p.notional
            | none => 0 } :=
  applyEvent_fill_position_spec st t u c price sz side dir pnl fee sp liq

/-! ### C10: an in-window ADL fill is never skipped by the STEP 5 guards -/

/-- The STEP 5 guards' joint precondition: the user has an account in the
working states and that account stores a position for the instrument. -/
def hasPosition (ws : List (String × AccountState)) (u c : String) : Prop :=
  ((alookup ws u).bind (fun a => alookup a.positions c)).isSome = true

theorem applyEvent_preserves_hasPosition (st : ReplayState) (e : Event)
    (u c : String) (h : hasPosition st.working_states u c) :
    hasPosition (applyEvent st e).working_states u c := by
  by_cases hu : e.user = u
  case neg =>
      unfold hasPosition
      rw [applyEvent_frame st e u hu]
      exact h
  case pos =>
    obtain ⟨a, ha⟩ : ∃ a, alookup st.working_states u = some a := by
      unfold hasPosition at h
      cases hwu : alookup st.working_states u with
      | none => rw [hwu] at h; simp at h
      | some a => exact ⟨a, rfl⟩
    have hp : (alookup a.positions c).isSome = true := by
      unfold hasPosition at h
      rw [ha] at h
      simpa using h
    cases e with
    | fill t u' c' price sz sd d pnl fee sp liq =>
        simp only [Event.user] at hu
        subst hu
        have hfst : (getUser st.working_states u' t).1 = a := by
          simp [getUser, ha]
        have hsnd : (getUser st.working_states u' t).2 = st.working_states := by
          simp [getUser, ha]
        unfold hasPosition
        simp only [applyEvent, hfst, hsnd]
        rw [alookup_aupdate_self]
        simp only [Option.some_bind]
        rw [alookup_aupdate]
        by_cases hcc : c' = c
        · simp [hcc]
        · simp only [hcc, if_false]
          exact hp
    | funding t u' c' amt =>
        simp only [Event.user] at hu
        subst hu
        have hfst : (getUser st.working_states u' t).1 = a := by
          simp [getUser, ha]
        have hsnd : (getUser st.working_states u' t).2 = st.working_states := by
          simp [getUser, ha]
        unfold hasPosition
        simp only [applyEvent, hfst, hsnd]
        rw [alookup_aupdate_self]
        simpa using hp
    | deposit t u' amt =>
        simp only [Event.user] at hu
        subst hu
        have hfst : (getUser st.working_states u' t).1 = a := by
          simp [getUser, ha]
        have hsnd : (getUser st.working_states u' t).2 = st.working_states := by
          simp [getUser, ha]
        unfold hasPosition
        simp only [applyEvent, hfst, hsnd]
        rw [alookup_aupdate_self]
        simpa using hp
    | withdrawal t u' amt =>
        simp only [Event.user] at hu
        subst hu
        have hfst : (getUser st.working_states u' t).1 = a := by
          simp [getUser, ha]
        have hsnd : (getUser st.working_states u' t).2 = st.working_states := by
          simp [getUser, ha]
        unfold hasPosition
        simp only [applyEvent, hfst, hsnd]
        rw [alookup_aupdate_self]
        simpa using hp
    | transfer t u' amt =>
        simp only [Event.user] at hu
        subst hu
        have hfst : (getUser st.working_states u' t).1 = a := by
          simp [getUser, ha]
        have hsnd : (getUser st.working_states u' t).2 = st.working_states := by
          simp [getUser, ha]
        unfold hasPosition
        simp only [applyEvent, hfst, hsnd]
        rw [alookup_aupdate_self]
        simpa using hp

theorem foldl_preserves_hasPosition (events : List Event) (st : ReplayState)
    (u c : String) (h : hasPosition st.working_states u c) :
    hasPosition (events.foldl applyEvent st).working_states u c := by
  induction events generalizing st with
  | nil => exact h
  | cons e rest ih =>
      rw [List.foldl_cons]
      exact ih _ (applyEvent_preserves_hasPosition st e u c h)

theorem applyEvent_fill_creates_position (st : ReplayState) (t : ℤ) (u c : String)
    (price sz : ℚ) (side dir : String) (pnl fee sp : ℚ) (liq : Option String) :
    hasPosition (applyEvent st
        (Event.fill t u c price sz side dir pnl fee sp liq)).working_states u c := by
  have h := applyEvent_fill_position_spec st t u c price sz side dir pnl fee sp liq
  unfold hasPosition
  rw [h]
  rfl

theorem replayFold_fill_hasPosition (init : List (String × AccountState))
    (events : List Event) (t : ℤ) (u c : String) (price sz : ℚ) (side dir : String)
    (pnl fee sp : ℚ) (liq : Option String)
    (hmem : Event.fill t u c price sz side dir pnl fee sp liq ∈ events) :
    hasPosition (replayFold init events).working_states u c := by
  obtain ⟨l₁, l₂, rfl⟩ := List.append_of_mem hmem
  unfold replayFold
  rw [List.foldl_append, List.foldl_cons]
  exact foldl_preserves_hasPosition l₂ _ u c
    (applyEvent_fill_creates_position _ t u c price sz side dir pnl fee sp liq)

/-- C10.  For every fill event folded by STEP 3 — in particular every
forced-deleveraging fill of the analysis window — the STEP 5 guards that would
skip the event (user absent from the working states, line 351; instrument
absent from the account's positions, line 380) never fire: the fold lazily
created the account and the position when it processed that very fill, and no
later event deletes either, so the metric computation never yields the
skip result `Except.ok none`. -/
theorem adl_fill_never_skipped (init : List (String × AccountState))
    (events : List Event) (t : ℤ) (u c : String) (price sz : ℚ) (side dir : String)
    (pnl fee sp : ℚ) (liq : Option String)
    (hmem : Event.fill t u c price sz side dir pnl fee sp liq ∈ events) :
    computeADLMetrics (replayFold init events)
        (Event.fill t u c price sz side dir pnl fee sp liq) ≠ Except.ok none := by
  have hpos :=
    replayFold_fill_hasPosition init events t u c price sz side dir pnl fee sp liq hmem
  unfold hasPosition at hpos
  cases ha : alookup (replayFold init events).working_states u with
  | none => rw [ha] at hpos; simp at hpos
  | some a =>
      rw [ha] at hpos
      simp only [Option.some_bind] at hpos
      cases hp : alookup a.positions c with
      | none => rw [hp] at hpos; simp at hpos
      | some p =>
          intro hcontra
          cases hep : p.entry_price with
          | none =>
              simp only [computeADLMetrics, ha, hp, hep, pyNum, bind,
                Except.bind] at hcontra
              exact Except.noConfusion hcontra
          | some q =>
              simp only [computeADLMetrics, ha, hp, hep, pyNum, pnlPercentCalc_eq,
                leverageCalc_eq, bind, Except.bind] at hcontra
              injection hcontra with h
              exact Option.noConfusion h

/-- C10, witness: a single ADL fill folded from an empty snapshot is not
skipped by the STEP 5 guards. -/
theorem adl_fill_never_skipped_witness :
    computeADLMetrics (replayFold [] [Event.fill 1760130900000 "A" "X" 100 1 "B"
        adlLabel 0 0 1 none])
      (Event.fill 1760130900000 "A" "X" 100 1 "B" adlLabel 0 0 1 none)
      ≠ Except.ok none :=
  adl_fill_never_skipped [] [Event.fill 1760130900000 "A" "X" 100 1 "B" adlLabel 0 0 1 none]
    1760130900000 "A" "X" 100 1 "B" adlLabel 0 0 1 none (List.mem_singleton.mpr rfl)

/-! ### C2: the end-to-end reconstruction scenario -/

/-- The C2 snapshot: account `"A"` with account value 1000 and a long position
of size 2 in instrument `"X"` at entry price 100. -/
def c2_init : List (String × AccountState) :=
  [("A", { account_value := 1000
           positions := [("X", { size := 2, entry_price := some 100, notional := 200 })]
           snapshot_time := SNAPSHOT_TIME })]

/-- The C2 funding event: +5 to account `"A"`. -/
def c2_funding : Event := Event.funding 1760130900000 "A" "X" 5

/-- The C2 forced-deleveraging fill on `"X"`: size 2 at price 90, realized
PnL −20, fee 1, pre-fill position size 2. -/
def c2_fill : Event :=
  Event.fill 1760130900001 "A" "X" 90 2 "A" adlLabel (-20) 1 2 none

/-- C2.  Running the pipeline on the scenario's snapshot and events yields
exactly one ADL record with account value `1000 + 5 - 20 - 1 = 984`, position
unrealized PnL `2 * (90 - 100) = -20` (price 90 against entry 100), total
equity `984 - 20 = 964`, leverage `(2 * 90) / 984`, and the negative-equity
flag false. -/
theorem end_to_end_scenario :
    (replayPipeline c2_init [c2_funding, c2_fill]).toOption.map (List.map (fun r =>
        (r.account_value_realtime, r.position_unrealized_pnl, r.total_equity,
          r.leverage_realtime, r.is_negative_equity)))
      = some [((1000 + 5 - 20 - 1 : ℚ), (2 * (90 - 100) : ℚ), (984 + 2 * (90 - 100) : ℚ),
          ((2 * 90) / 984 : ℚ), false)] := by
  norm_num [replayPipeline, eventsInWindow, replayFold, applyEvent, getUser, alookup,
    aupdate, adlEventsOf, isADLReplay, replayIsADLDir, adlLabel, collectADL,
    computeADLMetrics, totalUnrealized, posContribution, pnlPercentCalc, leverageCalc,
    pyDiv, pyNum, replayTimeKeep, SNAPSHOT_TIME, ADL_END_TIME, Event.time, Event.user,
    bind, Except.instMonad, Except.bind, pure, Except.pure, c2_init, c2_funding, c2_fill,
    List.filter, Except.toOption]

/-! ### C1: the STEP 5 metrics are taken from the final fold state, not the
state at the fill's moment -/

/-- The C1 ADL fill: processed first, on an account absent from the snapshot,
so at the moment it is applied the account value is 0. -/
def c1_fill : Event :=
  Event.fill 1760130900000 "A" "X" 100 1 "B" adlLabel 0 0 1 none

/-- The C1 deposit of 50, later in the window than the fill. -/
def c1_deposit : Event := Event.deposit 1760130900001 "A" 50

/-- C1, evidence.  The script's STEP 5 comment says the metrics are taken
from "the account state AT THAT EXACT MOMENT", but the loop runs after the
STEP 3 fold has consumed the whole window and reads the final
`working_states` and `last_prices`.  Concretely: with an empty snapshot, an
ADL fill at `t`, and a deposit of 50 at `t+1`, the fill's reported real-time
account value is 50 — the value after the LATER deposit — while the account
value as it stood at the moment the fill was applied (folding only up to and
including the fill) is 0. -/
theorem metrics_read_final_state_not_at_moment :
    (replayPipeline [] [c1_fill, c1_deposit]).toOption.map
        (List.map ADLRecord.account_value_realtime) = some [50] ∧
    (alookup (replayFold [] [c1_fill]).working_states "A").map
        AccountState.account_value = some 0 := by
  constructor
  · norm_num [replayPipeline, eventsInWindow, replayFold, applyEvent, getUser, alookup,
      aupdate, adlEventsOf, isADLReplay, replayIsADLDir, adlLabel, collectADL,
      computeADLMetrics, totalUnrealized, posContribution, pnlPercentCalc, leverageCalc,
      pyDiv, pyNum, replayTimeKeep, SNAPSHOT_TIME, ADL_END_TIME, Event.time, Event.user,
      bind, Except.instMonad, Except.bind, pure, Except.pure, c1_fill, c1_deposit,
      List.filter, Except.toOption]
  · norm_num [replayFold, applyEvent, getUser, alookup, aupdate, c1_fill]

end HyperReplay
